import Mathlib

/-!
Verification of the `hamflx/sync` git-pack synchronisation tool.

The development shallowly embeds `src/main.rs`:

* byte sequences are `List Nat`;
* the AES-256-GCM primitive used by `encrypt_pack_data` / `decrypt_pack_data`
  is an external crate, so it is a parameter: an `AEAD` record of an
  encryption and a decryption function.  The theorems about the envelope
  assume the standard symbolic contract of an AEAD (`GoodAEAD`):
  decryption inverts encryption, a ciphertext only decrypts to the message
  it encrypts, GCM's 16-byte tag expansion, and authentication failure on a
  wrong nonce or on any single-bit modification of a ciphertext.  An
  executable instance `toyAEAD` satisfying the contract is supplied so that
  every theorem can be exercised on concrete inputs;
* fallible Rust paths become `Except` / `Option`; a Rust slice that can
  panic is modelled by `rustSlice`, which returns `none` exactly when the
  Rust expression would panic;
* the libgit2 revision walk and pack builder, the S3 gateway, and the
  `git index-pack` / `git reset --hard` subprocesses are external
  collaborators; they are modelled from the specification where a claim
  needs their behaviour (marked `Modelled from the spec:` below).
-/

/-- Byte strings of the Rust program (`Vec<u8>` / `&[u8]`). -/
abbrev Bytes := List Nat

/- ### Generic list lemmas used throughout -/

theorem take_append_len {α : Type} (l₁ l₂ : List α) : (l₁ ++ l₂).take l₁.length = l₁ := by
  induction l₁ with
  | nil => rfl
  | cons a t ih => simp [List.take, ih]

theorem drop_append_len {α : Type} (l₁ l₂ : List α) : (l₁ ++ l₂).drop l₁.length = l₂ := by
  induction l₁ with
  | nil => rfl
  | cons a t ih => simp [List.drop, ih]

theorem set_append_left {α : Type} (l₁ l₂ : List α) (i : Nat) (x : α) (h : i < l₁.length) :
    (l₁ ++ l₂).set i x = l₁.set i x ++ l₂ := by
  induction l₁ generalizing i with
  | nil => simp at h
  | cons a t ih =>
    cases i with
    | zero => rfl
    | succ n =>
      simp only [List.cons_append, List.set]
      exact congrArg (List.cons a) (ih n (Nat.lt_of_succ_lt_succ h))

theorem set_append_right {α : Type} (l₁ l₂ : List α) (i : Nat) (x : α) (h : l₁.length ≤ i) :
    (l₁ ++ l₂).set i x = l₁ ++ l₂.set (i - l₁.length) x := by
  induction l₁ generalizing i with
  | nil => rfl
  | cons a t ih =>
    cases i with
    | zero => simp at h
    | succ n =>
      simp only [List.cons_append, List.set, List.length_cons, Nat.succ_sub_succ]
      exact congrArg (List.cons a) (ih n (Nat.le_of_succ_le_succ h))

theorem getD_append_left {α : Type} (l₁ l₂ : List α) (i : Nat) (d : α) (h : i < l₁.length) :
    (l₁ ++ l₂).getD i d = l₁.getD i d := by
  induction l₁ generalizing i with
  | nil => simp at h
  | cons a t ih =>
    cases i with
    | zero => rfl
    | succ n =>
      simp only [List.cons_append, List.getD_cons_succ]
      exact ih n (Nat.lt_of_succ_lt_succ h)

theorem getD_append_right {α : Type} (l₁ l₂ : List α) (i : Nat) (d : α) (h : l₁.length ≤ i) :
    (l₁ ++ l₂).getD i d = l₂.getD (i - l₁.length) d := by
  induction l₁ generalizing i with
  | nil => simp
  | cons a t ih =>
    cases i with
    | zero => simp at h
    | succ n =>
      simp only [List.cons_append, List.getD_cons_succ, List.length_cons, Nat.succ_sub_succ]
      exact ih n (Nat.le_of_succ_le_succ h)

theorem getD_set_self {α : Type} (l : List α) (i : Nat) (x : α) (d : α) (h : i < l.length) :
    (l.set i x).getD i d = x := by
  induction l generalizing i with
  | nil => simp at h
  | cons a t ih =>
    cases i with
    | zero => rfl
    | succ n => exact ih n (Nat.lt_of_succ_lt_succ h)

theorem drop_append_plus {α : Type} (l₁ l₂ : List α) (n : Nat) :
    (l₁ ++ l₂).drop (l₁.length + n) = l₂.drop n := by
  induction l₁ with
  | nil => simp
  | cons a t ih => simp [Nat.succ_add, ih]

theorem xor_cancel_eq (a b : Nat) (h : a ^^^ b = a) : b = 0 := by
  have h2 : a ^^^ (a ^^^ b) = a ^^^ a := congrArg (fun x => a ^^^ x) h
  rw [← Nat.xor_assoc, Nat.xor_self, Nat.zero_xor] at h2
  exact h2

theorem two_pow_ne_zero (j : Nat) : 2 ^ j ≠ 0 := by
  have h : 0 < 2 ^ j := Nat.pow_pos (by decide)
  omega

/- ### The AEAD primitive (external `aes_gcm` crate) -/

/-- An authenticated-encryption primitive: `enc key nonce plaintext` and
`dec key nonce ciphertext`.  `src/main.rs` instantiates this with
AES-256-GCM from the `aes_gcm` crate. -/
structure AEAD where
  enc : Bytes → Bytes → Bytes → Bytes
  dec : Bytes → Bytes → Bytes → Option Bytes

/-- `flipAt l i j` flips bit `j` of byte `i` of `l`: the model of a
single-bit modification of a byte string. -/
def flipAt (l : Bytes) (i j : Nat) : Bytes :=
  l.set i ((l.getD i 0) ^^^ (2 ^ j))

/-- The symbolic contract of an AEAD cipher, the properties AES-256-GCM is
relied upon for by `src/main.rs`:
round trip, 16-byte tag expansion, ciphertext soundness (a ciphertext that
decrypts under `(k, n)` is the encryption under `(k, n)` of its plaintext),
rejection under a wrong 12-byte nonce, and rejection of any single-bit
modification of a genuine ciphertext. -/
structure GoodAEAD (A : AEAD) : Prop where
  dec_enc : ∀ k n m, A.dec k n (A.enc k n m) = some m
  enc_len : ∀ k n m, (A.enc k n m).length = m.length + 16
  sound : ∀ k n c m, A.dec k n c = some m → c = A.enc k n m
  nonce_sound : ∀ k n nn m, n.length = 12 → nn.length = 12 → n ≠ nn →
    A.dec k nn (A.enc k n m) = none
  tamper : ∀ k n m i j, n.length = 12 → i < (A.enc k n m).length → j < 8 →
    A.dec k n (flipAt (A.enc k n m) i j) = none

/- ### The envelope cipher (`encrypt_pack_data` / `decrypt_pack_data`) -/

/-- `FIXED_KEY` of `src/main.rs` line 16: the ASCII bytes of the 32-byte
compiled-in constant `b"eZ4Ro3aish5zeitei!cau2aegei|Gh3a"`. -/
def FIXED_KEY : Bytes :=
  [101, 90, 52, 82, 111, 51, 97, 105, 115, 104, 53, 122, 101, 105, 116, 101,
   105, 33, 99, 97, 117, 50, 97, 101, 103, 101, 105, 124, 71, 104, 51, 97]

/-- `encrypt_pack_data` of `src/main.rs` lines 553-590.  The three random
values drawn from `OsRng` (`random_key`, the first-round `nonce` and the
second-round `fixed_nonce`) are parameters of the embedding. -/
def encrypt_pack_data (A : AEAD) (random_key nonce fixed_nonce : Bytes)
    (pack_data : Bytes) : Bytes :=
  let first_round_encrypted := A.enc random_key nonce pack_data
  let combined_data := nonce ++ random_key ++ first_round_encrypted
  let second_round_encrypted := A.enc FIXED_KEY fixed_nonce combined_data
  fixed_nonce ++ second_round_encrypted

/-- The error paths of `decrypt_pack_data` (`src/main.rs` lines 592-639);
in Rust each is a distinct message in a `Box<dyn Error>`. -/
inductive DecryptError where
  /-- "Encrypted data too short" (line 599). -/
  | tooShort
  /-- "Second round decryption failed" (line 612). -/
  | secondRoundFailed
  /-- "Decrypted data from second round too short" (line 615). -/
  | combinedTooShort
  /-- "First round decryption failed" (line 630). -/
  | firstRoundFailed
deriving DecidableEq

/-- The spec's `MalformedEnvelope` class: the two length-check failures. -/
def DecryptError.isMalformedEnvelope : DecryptError → Bool
  | .tooShort => true
  | .combinedTooShort => true
  | _ => false

/-- The spec's `CryptoError` / `DecryptionFailed` class: the two
authentication-tag failures. -/
def DecryptError.isCryptoError : DecryptError → Bool
  | .secondRoundFailed => true
  | .firstRoundFailed => true
  | _ => false

/-- `decrypt_pack_data` of `src/main.rs` lines 592-639.
`NONCE_SIZE = 12`, `KEY_SIZE = 32`; the constant `44` below is
`NONCE_SIZE + KEY_SIZE`.  The slicing `combined_data[0..12]`,
`combined_data[12..44]`, `combined_data[44..]` is expressed with
`take`/`drop`, which the preceding length checks keep within bounds. -/
def decrypt_pack_data (A : AEAD) (encrypted_data : Bytes) :
    Except DecryptError Bytes :=
  if encrypted_data.length ≤ 12 then .error .tooShort
  else
    match A.dec FIXED_KEY (encrypted_data.take 12) (encrypted_data.drop 12) with
    | none => .error .secondRoundFailed
    | some combined_data =>
      if combined_data.length ≤ 44 then .error .combinedTooShort
      else
        match A.dec ((combined_data.drop 12).take 32) (combined_data.take 12)
            (combined_data.drop 44) with
        | none => .error .firstRoundFailed
        | some original_data => .ok original_data

/-- The byte layout stated by the specification, written from its words:
`outer_nonce(12) || AEAD(K_fixed, outer_nonce, inner_nonce(12) ||
ephemeral_key(32) || AEAD(ephemeral_key, inner_nonce, payload))`.
It exists to be compared with `encrypt_pack_data`, which is translated
from the source. -/
def envelope_layout_spec (A : AEAD) (ephemeral_key inner_nonce outer_nonce : Bytes)
    (payload : Bytes) : Bytes :=
  outer_nonce ++
    A.enc FIXED_KEY outer_nonce
      (inner_nonce ++ ephemeral_key ++ A.enc ephemeral_key inner_nonce payload)

/- ### An executable AEAD instance satisfying the contract -/

/-- XOR of all bytes of a byte string (a 1-byte checksum). -/
def xorBytes : Bytes → Nat
  | [] => 0
  | b :: t => b ^^^ xorBytes t

theorem xorBytes_cons (b : Nat) (t : Bytes) : xorBytes (b :: t) = b ^^^ xorBytes t := rfl

/-- Pad or truncate a byte string to exactly 12 bytes. -/
def pad12 (n : Bytes) : Bytes := (n ++ List.replicate 12 0).take 12

theorem pad12_len (n : Bytes) : (pad12 n).length = 12 := by
  simp [pad12]

theorem pad12_of_len (n : Bytes) (h : n.length = 12) : pad12 n = n := by
  unfold pad12
  rw [show (12 : Nat) = n.length from h.symm]
  exact take_append_len n _

/-- The 16-byte tag of the toy cipher: the nonce (padded to 12 bytes), a
checksum of the message, a checksum of the key, and the message length. -/
def toyTag (k n m : Bytes) : Bytes := pad12 n ++ [xorBytes m, xorBytes k, m.length, 0]

theorem toyTag_len (k n m : Bytes) : (toyTag k n m).length = 16 := by
  simp [toyTag, pad12_len]

/-- Toy encryption: the plaintext followed by the 16-byte tag. -/
def toyEnc (k n m : Bytes) : Bytes := m ++ toyTag k n m

/-- Toy decryption: check the tag over the leading bytes. -/
def toyDec (k n c : Bytes) : Option Bytes :=
  if c.length < 16 then none
  else if c.drop (c.length - 16) = toyTag k n (c.take (c.length - 16)) then
    some (c.take (c.length - 16))
  else none

/-- The executable AEAD instance used to exercise the theorems. -/
def toyAEAD : AEAD := ⟨toyEnc, toyDec⟩

theorem toyDec_append16 (k n x t : Bytes) (ht : t.length = 16) :
    toyDec k n (x ++ t) = if t = toyTag k n x then some x else none := by
  unfold toyDec
  have hlen : (x ++ t).length = x.length + 16 := by rw [List.length_append, ht]
  simp only [hlen, Nat.add_sub_cancel, take_append_len, drop_append_len]
  rw [if_neg (by omega)]

theorem flipAt_length (l : Bytes) (i j : Nat) : (flipAt l i j).length = l.length := by
  simp [flipAt]

theorem flipAt_append_left (l₁ l₂ : Bytes) (i j : Nat) (h : i < l₁.length) :
    flipAt (l₁ ++ l₂) i j = flipAt l₁ i j ++ l₂ := by
  unfold flipAt
  rw [getD_append_left _ _ _ _ h, set_append_left _ _ _ _ h]

theorem flipAt_append_right (l₁ l₂ : Bytes) (i j : Nat) (h : l₁.length ≤ i) :
    flipAt (l₁ ++ l₂) i j = l₁ ++ flipAt l₂ (i - l₁.length) j := by
  unfold flipAt
  rw [getD_append_right _ _ _ _ h, set_append_right _ _ _ _ h]

theorem flipAt_ne (l : Bytes) (i j : Nat) (h : i < l.length) : flipAt l i j ≠ l := by
  intro he
  have h2 := congrArg (fun l2 => List.getD l2 i 0) he
  simp only [flipAt] at h2
  rw [getD_set_self _ _ _ _ h] at h2
  exact two_pow_ne_zero j (xor_cancel_eq _ _ h2)

theorem xorBytes_set (m : Bytes) (i p : Nat) (h : i < m.length) :
    xorBytes (m.set i ((m.getD i 0) ^^^ p)) = xorBytes m ^^^ p := by
  induction m generalizing i with
  | nil => simp at h
  | cons b t ih =>
    cases i with
    | zero =>
      simp only [List.getD_cons_zero, List.set, xorBytes_cons]
      rw [Nat.xor_assoc, Nat.xor_comm p (xorBytes t), ← Nat.xor_assoc]
    | succ nn =>
      simp only [List.getD_cons_succ, List.set, xorBytes_cons]
      rw [ih nn (Nat.lt_of_succ_lt_succ h), ← Nat.xor_assoc]

theorem xorBytes_flipAt (m : Bytes) (i j : Nat) (h : i < m.length) :
    xorBytes (flipAt m i j) = xorBytes m ^^^ 2 ^ j := by
  unfold flipAt
  exact xorBytes_set m i (2 ^ j) h

theorem toyTag_take12 (k n m : Bytes) : (toyTag k n m).take 12 = pad12 n := by
  unfold toyTag
  rw [show (12 : Nat) = (pad12 n).length from (pad12_len n).symm, take_append_len]

theorem toyTag_getD12 (k n m : Bytes) : (toyTag k n m).getD 12 0 = xorBytes m := by
  unfold toyTag
  rw [getD_append_right _ _ 12 0 (by rw [pad12_len]), pad12_len]
  rfl

/-- The toy cipher satisfies the symbolic AEAD contract. -/
theorem goodToy : GoodAEAD toyAEAD := by
  constructor
  · -- dec_enc
    intro k n m
    show toyDec k n (toyEnc k n m) = some m
    unfold toyEnc
    rw [toyDec_append16 _ _ _ _ (toyTag_len k n m), if_pos rfl]
  · -- enc_len
    intro k n m
    show (toyEnc k n m).length = m.length + 16
    rw [toyEnc, List.length_append, toyTag_len]
  · -- sound
    intro k n c m h
    show c = toyEnc k n m
    replace h : toyDec k n c = some m := h
    unfold toyDec at h
    by_cases hlen : c.length < 16
    · rw [if_pos hlen] at h
      exact absurd h (by simp)
    · rw [if_neg hlen] at h
      by_cases htag : c.drop (c.length - 16) = toyTag k n (c.take (c.length - 16))
      · rw [if_pos htag] at h
        have hm : c.take (c.length - 16) = m := by
          injection h
        subst hm
        unfold toyEnc
        rw [← htag, List.take_append_drop]
      · rw [if_neg htag] at h
        exact absurd h (by simp)
  · -- nonce_sound
    intro k n nn m hn hnn hne
    show toyDec k nn (toyEnc k n m) = none
    unfold toyEnc
    rw [toyDec_append16 _ _ _ _ (toyTag_len k n m)]
    rw [if_neg]
    intro he
    apply hne
    have h12 := congrArg (fun l => List.take 12 l) he
    simp only [toyTag_take12] at h12
    rw [pad12_of_len n hn, pad12_of_len nn hnn] at h12
    exact h12
  · -- tamper
    intro k n m i j hn hi hj
    have hi2 : i < m.length + 16 := by
      have h3 : (toyAEAD.enc k n m).length = m.length + 16 := by
        show (m ++ toyTag k n m).length = m.length + 16
        rw [List.length_append, toyTag_len]
      rw [h3] at hi
      exact hi
    show toyDec k n (flipAt (m ++ toyTag k n m) i j) = none
    by_cases him : i < m.length
    · rw [flipAt_append_left _ _ _ _ him,
        toyDec_append16 _ _ _ _ (toyTag_len k n m)]
      rw [if_neg]
      intro he
      have hx := congrArg (fun l => List.getD l 12 0) he
      simp only [toyTag_getD12] at hx
      rw [xorBytes_flipAt m i j him] at hx
      exact two_pow_ne_zero j (xor_cancel_eq _ _ hx.symm)
    · have him2 : m.length ≤ i := Nat.le_of_not_lt him
      rw [flipAt_append_right _ _ _ _ him2,
        toyDec_append16 _ _ _ _ (by rw [flipAt_length, toyTag_len])]
      rw [if_neg]
      exact flipAt_ne _ _ _ (by rw [toyTag_len]; omega)

/- ### Round trip of the envelope -/

/-- Core round-trip lemma: decrypting an encryption of any payload, under
any AEAD satisfying the contract and well-sized key and nonces, returns the
payload. -/
theorem decrypt_encrypt_core (A : AEAD) (hA : GoodAEAD A)
    (rk inN outN payload : Bytes)
    (hrk : rk.length = 32) (hin : inN.length = 12) (hout : outN.length = 12) :
    decrypt_pack_data A (encrypt_pack_data A rk inN outN payload) =
      Except.ok payload := by
  have hlen1 : (A.enc rk inN payload).length = payload.length + 16 :=
    hA.enc_len rk inN payload
  have hcomb : (inN ++ rk ++ A.enc rk inN payload).length = payload.length + 60 := by
    simp only [List.length_append, hin, hrk, hlen1]
    omega
  have hlen2 : (A.enc FIXED_KEY outN (inN ++ rk ++ A.enc rk inN payload)).length
      = payload.length + 76 := by
    rw [hA.enc_len, hcomb]
  simp only [encrypt_pack_data, decrypt_pack_data]
  have hb : ¬ ((outN ++ A.enc FIXED_KEY outN (inN ++ rk ++ A.enc rk inN payload)).length ≤ 12) := by
    rw [List.length_append, hout, hlen2]
    omega
  rw [if_neg hb]
  have htk : (outN ++ A.enc FIXED_KEY outN (inN ++ rk ++ A.enc rk inN payload)).take 12 = outN := by
    rw [show (12 : Nat) = outN.length from hout.symm, take_append_len]
  have hdr : (outN ++ A.enc FIXED_KEY outN (inN ++ rk ++ A.enc rk inN payload)).drop 12
      = A.enc FIXED_KEY outN (inN ++ rk ++ A.enc rk inN payload) := by
    rw [show (12 : Nat) = outN.length from hout.symm, drop_append_len]
  simp only [htk, hdr, hA.dec_enc]
  have hc44 : ¬ ((inN ++ rk ++ A.enc rk inN payload).length ≤ 44) := by
    rw [hcomb]
    omega
  rw [if_neg hc44]
  have ht12 : (inN ++ rk ++ A.enc rk inN payload).take 12 = inN := by
    rw [List.append_assoc, show (12 : Nat) = inN.length from hin.symm, take_append_len]
  have hd12 : (inN ++ rk ++ A.enc rk inN payload).drop 12 = rk ++ A.enc rk inN payload := by
    rw [List.append_assoc, show (12 : Nat) = inN.length from hin.symm, drop_append_len]
  have ht32 : (rk ++ A.enc rk inN payload).take 32 = rk := by
    rw [show (32 : Nat) = rk.length from hrk.symm, take_append_len]
  have hd44 : (inN ++ rk ++ A.enc rk inN payload).drop 44 = A.enc rk inN payload := by
    rw [List.append_assoc, show (44 : Nat) = inN.length + 32 from by rw [hin],
      drop_append_plus, show (32 : Nat) = rk.length from hrk.symm, drop_append_len]
  simp only [ht12, hd12, ht32, hd44, hA.dec_enc]

/- ### Repository identity parsing (`extract_repo_info`) -/

/-- Whether `p` is a prefix of `l` (character lists). -/
def isPrefixList : List Char → List Char → Bool
  | [], _ => true
  | _ :: _, [] => false
  | a :: p, b :: l => if a = b then isPrefixList p l else false

/-- Rust's `str::contains` with a string pattern: substring search. -/
def containsSub (l p : List Char) : Bool :=
  if isPrefixList p l then true
  else
    match l with
    | [] => false
    | _ :: t => containsSub t p

/-- Rust's `str::split` with a char pattern: split at every occurrence,
keeping empty pieces (always at least one piece). -/
def splitOnChar (c : Char) : List Char → List (List Char)
  | [] => [[]]
  | a :: t =>
    if a = c then [] :: splitOnChar c t
    else
      match splitOnChar c t with
      | [] => [[a]]
      | h :: r => (a :: h) :: r

/-- Bounded helper for `trim_end_matches`, working on reversed lists: strip
the reversed pattern from the front at most `fuel` times. -/
def stripRevAux (p : List Char) : Nat → List Char → List Char
  | 0, l => l
  | fuel + 1, l =>
    if p ≠ [] ∧ isPrefixList p l then stripRevAux p fuel (l.drop p.length)
    else l

/-- Rust's `str::trim_end_matches`: repeatedly removes the suffix `pat`. -/
def trim_end_matches (s pat : String) : String :=
  String.mk (stripRevAux pat.data.reverse s.data.length s.data.reverse).reverse

/-- Rust's `str::contains` lifted to `String`. -/
def contains_sub (s pat : String) : Bool := containsSub s.data pat.data

/-- Rust's `str::starts_with` lifted to `String`. -/
def starts_with (s pat : String) : Bool := isPrefixList pat.data s.data

/-- Rust's `str::split` on a char, lifted to `String` (the `collect` into
`Vec<&str>` of the source). -/
def split_on (s : String) (c : Char) : List String :=
  (splitOnChar c s.data).map String.mk

/-- The URL-parsing part of `extract_repo_info` (`src/main.rs` lines
376-416), a pure function of the `origin` remote URL.  Rust's guarded
`parts[i]` indexing becomes `getD` with a default; every `getD` below sits
under the same length test as the Rust index. -/
def parse_repo_url (url : String) : String × String :=
  if contains_sub url ("github.com") then
    if starts_with url ("git@") then
      let parts := split_on url (':')
      if parts.length ≥ 2 then
        let repo_part := trim_end_matches (parts.getD 1 ("")) (".git")
        let repo_parts := split_on repo_part ('/')
        if repo_parts.length ≥ 2 then
          (repo_parts.getD 0 (""), repo_parts.getD 1 (""))
        else
          (("unknown"), repo_part)
      else
        (("unknown"), ("unknown"))
    else
      let url_parts := split_on url ('/')
      if url_parts.length ≥ 5 then
        (url_parts.getD (url_parts.length - 2) (""),
         trim_end_matches (url_parts.getD (url_parts.length - 1) ("")) (".git"))
      else
        (("unknown"), ("unknown"))
  else
    let path_parts := split_on url ('/')
    if path_parts.length ≥ 2 then
      (path_parts.getD (path_parts.length - 2) (""),
       trim_end_matches (path_parts.getD (path_parts.length - 1) ("")) (".git"))
    else
      (("unknown"), ("unknown"))

/-- Stand-in for `git2::Error`, the error type in `extract_repo_info`'s
Rust signature (no code path ever produces one). -/
inductive GitError where
  | err
deriving DecidableEq

/-- `extract_repo_info` (`src/main.rs` lines 348-419) as a function of the
repository's `origin` remote: `none` models a repository with no `origin`
remote, `some none` an `origin` remote whose URL is not valid UTF-8
(`remote.url()` returned `None`), `some (some url)` a present URL. -/
def extract_repo_info (remote : Option (Option String)) :
    Except GitError (String × String) :=
  match remote with
  | none => .ok (("unknown"), ("unknown"))
  | some none => .ok (("unknown"), ("unknown"))
  | some (some url) => .ok (parse_repo_url url)

/- ### Pack building (`cmd_up` walk configuration over libgit2) -/

/-- Modelled from the spec: the commit graph walked by libgit2's revwalk.
`parents c` are the parent commit ids of commit `c`; `treeObjs c` are the
ids of the tree and blob objects referenced by `c`'s root tree. -/
structure CommitGraph where
  parents : Nat → List Nat
  treeObjs : Nat → List Nat

/-- A git object as it appears in a pack: a commit, or a tree/blob. -/
inductive GitObj where
  | commit (oid : Nat)
  | treeOrBlob (oid : Nat)
deriving DecidableEq

/-- Modelled from the spec: commits reachable from `start` (the revision
walk's closure), computed with explicit fuel. -/
def reachC (g : CommitGraph) : Nat → Nat → List Nat
  | 0, c => [c]
  | fuel + 1, c => c :: (g.parents c).flatMap (fun p => reachC g fuel p)

/-- Modelled from the spec: the commits emitted by the revwalk configured
by `cmd_up` (`src/main.rs` lines 147-172): `push start`, and `hide b` when
a baseline `b` is given — commits reachable from `start` but not from `b`;
with no baseline, the full ancestry of `start`. -/
def packCommits (g : CommitGraph) (fuel start : Nat) : Option Nat → List Nat
  | none => reachC g fuel start
  | some b => (reachC g fuel start).filter
      (fun c => decide (¬ c ∈ reachC g fuel b))

/-- Modelled from the spec: the object closure of the pack written by
`packbuilder.insert_walk` (`src/main.rs` line 178): the walked commits plus
every tree/blob they reference that is not referenced by a commit reachable
from the baseline ("pack bytes never include objects reachable from the
declared baseline"). -/
def packObjects (g : CommitGraph) (fuel start : Nat) (baseline : Option Nat) :
    List GitObj :=
  let cs := packCommits g fuel start baseline
  let excluded := match baseline with
    | none => []
    | some b => (reachC g fuel b).flatMap g.treeObjs
  cs.map GitObj.commit ++
    ((cs.flatMap g.treeObjs).filter (fun t => decide (¬ t ∈ excluded))).map
      GitObj.treeOrBlob

/-- The linear chain A → B → C → D of the diff-correctness property, as
commits 0 → 1 → 2 → 3, with an arbitrary assignment of tree/blob objects. -/
def chainParents : Nat → List Nat
  | 0 => []
  | n + 1 => [n]

/-- The chain graph with tree/blob assignment `t`. -/
def chainG (t : Nat → List Nat) : CommitGraph := ⟨chainParents, t⟩

/- ### The `up` / `down` commands -/

/-- Rust slice `&l[a..b]`: `none` exactly when the Rust expression panics
(range out of bounds). -/
def rustSlice (l : Bytes) (a b : Nat) : Option Bytes :=
  if a ≤ b ∧ b ≤ l.length then some ((l.drop a).take (b - a)) else none

/-- The prefix split of `apply_pack_to_repo` (`src/main.rs` lines 645-648):
`&pack_data[0..40]` (the commit sha) and `&pack_data[40..]` (the pack
bytes).  Both slices are unguarded in Rust; `none` models the panic. -/
def apply_sha_split (pack_data : Bytes) : Option (Bytes × Bytes) :=
  match rustSlice pack_data 0 40, rustSlice pack_data 40 pack_data.length with
  | some sha, some rest => some (sha, rest)
  | _, _ => none

/-- The 40-character lowercase-hex rendering of a commit id
(`Oid::to_string`), as ASCII bytes. -/
def hexDigit (x : Nat) : Nat := if x < 10 then 48 + x else 87 + x

/-- `oidBytes t` is the 40-byte ASCII-hex commit identifier of commit `t`. -/
def oidBytes (t : Nat) : Bytes :=
  (List.range 40).map (fun i => hexDigit (t / 16 ^ (39 - i) % 16))

theorem oidBytes_len (t : Nat) : (oidBytes t).length = 40 := by
  simp [oidBytes]

/-- The state of the repository the commands run in, as far as the two
commands read it: whether HEAD is a branch, the branch name, the HEAD
commit, the `origin` remote (as in `extract_repo_info`), and the target of
`refs/remotes/origin/<branch>` when that reference exists. -/
structure RepoState where
  headIsBranch : Bool
  branchName : String
  headCommit : Nat
  remoteUrl : Option (Option String)
  remoteRef : Option Nat

/-- Errors surfaced by the modelled commands. -/
inductive CmdError where
  /-- "HEAD is not a branch (detached HEAD state)" (lines 105 and 275). -/
  | notABranch
  /-- A `git2::Error` propagated by `?` (never produced here). -/
  | gitError
  /-- The S3 download failed / object absent. -/
  | notFound
  /-- `decrypt_pack_data` failed. -/
  | decryptFailed (e : DecryptError)
  /-- The unguarded slice in `apply_pack_to_repo` panicked. -/
  | panicOOB
deriving DecidableEq

/-- The object key `{author}/{name}/{branch}/head.pack` used for encrypted
packs (`src/main.rs` lines 200-205 and 289-292). -/
def upload_key (author name branch : String) : String :=
  author ++ ("/") ++ name ++ ("/") ++ branch ++ ("/head.pack")

/-- The encrypted-upload path of `cmd_up` (`src/main.rs` lines 96-263,
`raw = false`): require HEAD to be a branch, create the staged-changes
commit `stagedOid` (a fresh commit parented on HEAD — its id is a
parameter), walk from it hiding `refs/remotes/origin/<branch>` when
present, serialize the pack (`packEncode` stands for libgit2's pack
serializer), prepend the staged commit's 40-byte ASCII sha, encrypt, and
return the object key and blob handed to the S3 gateway. -/
def cmd_up_model (A : AEAD) (rk inN outN : Bytes) (g : CommitGraph)
    (fuel : Nat) (packEncode : List GitObj → Bytes) (st : RepoState)
    (stagedOid : Nat) : Except CmdError (String × Bytes) :=
  if st.headIsBranch = false then .error .notABranch
  else
    match extract_repo_info st.remoteUrl with
    | .error _ => .error .gitError
    | .ok info =>
      let objs := packObjects g fuel stagedOid st.remoteRef
      let pack_data_with_sha := oidBytes stagedOid ++ packEncode objs
      .ok (upload_key info.1 info.2 st.branchName,
        encrypt_pack_data A rk inN outN pack_data_with_sha)

/-- `cmd_down` (`src/main.rs` lines 266-308) followed by
`apply_pack_to_repo` (lines 641-693): require HEAD to be a branch, download
`{author}/{name}/{branch}/head.pack` from the store, decrypt, split off the
40-byte sha, and (modelled from the spec: `git index-pack` then
`git reset --hard <sha>` force the current branch, index and working tree
to the embedded identifier) return the 40-byte ASCII commit identifier the
repository is reset to. -/
def cmd_down_model (A : AEAD) (store : String → Option Bytes)
    (st : RepoState) : Except CmdError Bytes :=
  if st.headIsBranch = false then .error .notABranch
  else
    match extract_repo_info st.remoteUrl with
    | .error _ => .error .gitError
    | .ok info =>
      match store (upload_key info.1 info.2 st.branchName) with
      | none => .error .notFound
      | some blob =>
        match decrypt_pack_data A blob with
        | .error e => .error (.decryptFailed e)
        | .ok pack_data =>
          match apply_sha_split pack_data with
          | none => .error .panicOOB
          | some (sha, _rest) => .ok sha

/- ### Claim theorems -/

/-- Claim C1: for every byte sequence `P` and every 40-character ASCII
string `S`, decrypting the blob produced by encrypting `S ++ P` returns
exactly the original payload: the 40-byte commit identifier `S` followed by
the pack bytes `P`. -/
theorem c1_roundtrip (A : AEAD) (hA : GoodAEAD A) (rk inN outN S P : Bytes)
    (hrk : rk.length = 32) (hin : inN.length = 12) (hout : outN.length = 12)
    (hS : S.length = 40) (_hascii : ∀ c ∈ S, c < 128) :
    decrypt_pack_data A (encrypt_pack_data A rk inN outN (S ++ P))
      = Except.ok (S ++ P)
    ∧ (S ++ P).take 40 = S ∧ (S ++ P).drop 40 = P := by
  refine ⟨decrypt_encrypt_core A hA rk inN outN (S ++ P) hrk hin hout, ?_, ?_⟩
  · rw [show (40 : Nat) = S.length from hS.symm]
    exact take_append_len S P
  · rw [show (40 : Nat) = S.length from hS.symm]
    exact drop_append_len S P

/-- Witness for C1 at a concrete 40-byte ASCII identifier and pack. -/
theorem c1_roundtrip_witness :
    decrypt_pack_data toyAEAD
        (encrypt_pack_data toyAEAD (List.replicate 32 5) (List.replicate 12 3)
          (List.replicate 12 4) (List.replicate 40 97 ++ [1, 2, 3]))
      = Except.ok (List.replicate 40 97 ++ [1, 2, 3])
    ∧ (List.replicate 40 97 ++ [1, 2, 3]).take 40 = List.replicate 40 97
    ∧ (List.replicate 40 97 ++ [1, 2, 3]).drop 40 = [1, 2, 3] :=
  c1_roundtrip toyAEAD goodToy (List.replicate 32 5) (List.replicate 12 3)
    (List.replicate 12 4) (List.replicate 40 97) [1, 2, 3]
    (by decide) (by decide) (by decide) (by decide) (by decide)

/-- Claim C3: the blob produced by encryption has the exact byte layout
`outer_nonce(12) || AEAD(K_fixed, outer_nonce, inner_nonce(12) ||
ephemeral_key(32) || AEAD(ephemeral_key, inner_nonce, sha(40) || pack))`,
with `K_fixed` the compiled-in 32-byte constant. -/
theorem c3_layout (A : AEAD) (ephemeral_key inner_nonce outer_nonce S P : Bytes) :
    encrypt_pack_data A ephemeral_key inner_nonce outer_nonce (S ++ P)
      = envelope_layout_spec A ephemeral_key inner_nonce outer_nonce (S ++ P)
    ∧ FIXED_KEY.length = 32 :=
  ⟨rfl, by decide⟩

/-- Claim C4: a blob of length at most 12, and a blob whose outer-layer
decryption yields at most 44 bytes, both fail with a
`MalformedEnvelope`-class error; the embedding mirrors the source order in
which each length check precedes the slicing of that layer. -/
theorem c4_malformed (A : AEAD) (blob : Bytes) :
    (blob.length ≤ 12 →
      decrypt_pack_data A blob = Except.error DecryptError.tooShort
      ∧ DecryptError.tooShort.isMalformedEnvelope = true)
    ∧ (∀ combined, 12 < blob.length →
        A.dec FIXED_KEY (blob.take 12) (blob.drop 12) = some combined →
        combined.length ≤ 44 →
        decrypt_pack_data A blob = Except.error DecryptError.combinedTooShort
        ∧ DecryptError.combinedTooShort.isMalformedEnvelope = true) := by
  constructor
  · intro h
    refine ⟨?_, rfl⟩
    unfold decrypt_pack_data
    rw [if_pos h]
  · intro combined h1 h2 h3
    refine ⟨?_, rfl⟩
    unfold decrypt_pack_data
    rw [if_neg (by omega)]
    simp only [h2]
    rw [if_pos h3]

/-- Witness for C4: the empty blob, and a concrete blob whose outer layer
decrypts to the 1-byte plaintext `[9]`. -/
theorem c4_malformed_witness :
    decrypt_pack_data toyAEAD [] = Except.error DecryptError.tooShort
    ∧ decrypt_pack_data toyAEAD
        (List.replicate 12 0 ++ toyEnc FIXED_KEY (List.replicate 12 0) [9])
      = Except.error DecryptError.combinedTooShort := by
  constructor
  · exact ((c4_malformed toyAEAD []).1 (by decide)).1
  · exact ((c4_malformed toyAEAD
      (List.replicate 12 0 ++ toyEnc FIXED_KEY (List.replicate 12 0) [9])).2
      [9] (by decide) (by decide) (by decide)).1

/-- Claim C7: the identity parser maps the scp-style URL
`git@github.com:acme/widget.git` and the URL-style
`https://github.com/acme/widget.git` both to `("acme", "widget")`,
stripping the trailing `.git`. -/
theorem c7_identity_parsing :
    parse_repo_url ("git@github.com:acme/widget.git") = (("acme"), ("widget"))
    ∧ parse_repo_url ("https://github.com/acme/widget.git")
      = (("acme"), ("widget")) := by
  constructor <;> decide

/-- Claim C9: with HEAD detached, both commands fail with the
`NotABranch`-class error; the result carries no pack, upload, download or
apply effect. -/
theorem c9_detached_head (A : AEAD) (rk inN outN : Bytes) (g : CommitGraph)
    (fuel : Nat) (pe : List GitObj → Bytes) (st : RepoState) (so : Nat)
    (store : String → Option Bytes) (h : st.headIsBranch = false) :
    cmd_up_model A rk inN outN g fuel pe st so = Except.error CmdError.notABranch
    ∧ cmd_down_model A store st = Except.error CmdError.notABranch := by
  constructor
  · unfold cmd_up_model
    rw [if_pos h]
  · unfold cmd_down_model
    rw [if_pos h]

/-- Witness for C9 at a concrete detached-HEAD state. -/
theorem c9_detached_head_witness :
    cmd_up_model toyAEAD [] [] [] (chainG (fun _ => [])) 0 (fun _ => [])
        ⟨false, ("dev"), 0, none, none⟩ 0 = Except.error CmdError.notABranch
    ∧ cmd_down_model toyAEAD (fun _ => none) ⟨false, ("dev"), 0, none, none⟩
      = Except.error CmdError.notABranch :=
  c9_detached_head toyAEAD [] [] [] (chainG (fun _ => [])) 0 (fun _ => [])
    ⟨false, ("dev"), 0, none, none⟩ 0 (fun _ => none) rfl

/-- Claim C10: decryption can return a payload of any length, and the
40-byte prefix extraction in `apply_pack_to_repo` is unguarded: on a
decrypted payload shorter than 40 bytes the slice `&pack_data[0..40]`
panics (`none` in the model) instead of returning an error. -/
theorem c10_apply_panics (A : AEAD) (hA : GoodAEAD A) (rk inN outN payload : Bytes)
    (hrk : rk.length = 32) (hin : inN.length = 12) (hout : outN.length = 12)
    (hshort : payload.length < 40) :
    decrypt_pack_data A (encrypt_pack_data A rk inN outN payload)
      = Except.ok payload
    ∧ apply_sha_split payload = none := by
  refine ⟨decrypt_encrypt_core A hA rk inN outN payload hrk hin hout, ?_⟩
  have ha : rustSlice payload 0 40 = none := by
    unfold rustSlice
    rw [if_neg (by omega)]
  unfold apply_sha_split
  simp only [ha]

/-- Witness for C10 at a concrete 2-byte payload. -/
theorem c10_apply_panics_witness :
    decrypt_pack_data toyAEAD
        (encrypt_pack_data toyAEAD (List.replicate 32 5) (List.replicate 12 3)
          (List.replicate 12 4) [1, 2])
      = Except.ok [1, 2]
    ∧ apply_sha_split [1, 2] = none :=
  c10_apply_panics toyAEAD goodToy (List.replicate 32 5) (List.replicate 12 3)
    (List.replicate 12 4) [1, 2] (by decide) (by decide) (by decide) (by decide)

/-- Claim C5: flipping any single bit of a blob produced by encryption
makes `decrypt_pack_data` fail with a `CryptoError`-class error (the outer
authentication check); it never returns altered plaintext. -/
theorem c5_tamper (A : AEAD) (hA : GoodAEAD A) (rk inN outN payload : Bytes)
    (i j : Nat)
    (_hrk : rk.length = 32) (_hin : inN.length = 12) (hout : outN.length = 12)
    (hi : i < (encrypt_pack_data A rk inN outN payload).length) (hj : j < 8) :
    flipAt (encrypt_pack_data A rk inN outN payload) i j
      ≠ encrypt_pack_data A rk inN outN payload
    ∧ decrypt_pack_data A (flipAt (encrypt_pack_data A rk inN outN payload) i j)
      = Except.error DecryptError.secondRoundFailed
    ∧ DecryptError.secondRoundFailed.isCryptoError = true := by
  refine ⟨flipAt_ne _ _ _ hi, ?_, rfl⟩
  have henc : encrypt_pack_data A rk inN outN payload
      = outN ++ A.enc FIXED_KEY outN (inN ++ rk ++ A.enc rk inN payload) := rfl
  have hc2len : (A.enc FIXED_KEY outN (inN ++ rk ++ A.enc rk inN payload)).length
      = (inN ++ rk ++ A.enc rk inN payload).length + 16 := hA.enc_len _ _ _
  rw [henc] at hi ⊢
  rw [List.length_append, hout] at hi
  by_cases hcase : i < 12
  · -- the flipped bit lies in the outer nonce
    have h12 : i < outN.length := by rw [hout]; exact hcase
    rw [flipAt_append_left _ _ _ _ h12]
    unfold decrypt_pack_data
    have hfl : (flipAt outN i j).length = 12 := by rw [flipAt_length, hout]
    rw [if_neg (by rw [List.length_append, hfl]; omega)]
    have htake : (flipAt outN i j ++
        A.enc FIXED_KEY outN (inN ++ rk ++ A.enc rk inN payload)).take 12
        = flipAt outN i j := by
      rw [show (12 : Nat) = (flipAt outN i j).length from hfl.symm]
      exact take_append_len _ _
    have hdrop : (flipAt outN i j ++
        A.enc FIXED_KEY outN (inN ++ rk ++ A.enc rk inN payload)).drop 12
        = A.enc FIXED_KEY outN (inN ++ rk ++ A.enc rk inN payload) := by
      rw [show (12 : Nat) = (flipAt outN i j).length from hfl.symm]
      exact drop_append_len _ _
    have hdec : A.dec FIXED_KEY (flipAt outN i j)
        (A.enc FIXED_KEY outN (inN ++ rk ++ A.enc rk inN payload)) = none :=
      hA.nonce_sound FIXED_KEY outN (flipAt outN i j) _ hout hfl
        (Ne.symm (flipAt_ne _ _ _ h12))
    simp only [htake, hdrop, hdec]
  · -- the flipped bit lies in the outer ciphertext
    have h12 : outN.length ≤ i := by rw [hout]; omega
    rw [flipAt_append_right _ _ _ _ h12]
    unfold decrypt_pack_data
    have hfl : (flipAt (A.enc FIXED_KEY outN (inN ++ rk ++ A.enc rk inN payload))
        (i - outN.length) j).length
        = (A.enc FIXED_KEY outN (inN ++ rk ++ A.enc rk inN payload)).length := by
      rw [flipAt_length]
    rw [if_neg (by rw [List.length_append, hfl, hout, hc2len]; omega)]
    have htake : (outN ++ flipAt (A.enc FIXED_KEY outN (inN ++ rk ++ A.enc rk inN payload))
        (i - outN.length) j).take 12 = outN := by
      rw [show (12 : Nat) = outN.length from hout.symm]
      exact take_append_len _ _
    have hdrop : (outN ++ flipAt (A.enc FIXED_KEY outN (inN ++ rk ++ A.enc rk inN payload))
        (i - outN.length) j).drop 12
        = flipAt (A.enc FIXED_KEY outN (inN ++ rk ++ A.enc rk inN payload))
            (i - outN.length) j := by
      rw [show (12 : Nat) = outN.length from hout.symm]
      exact drop_append_len _ _
    have hdec : A.dec FIXED_KEY outN
        (flipAt (A.enc FIXED_KEY outN (inN ++ rk ++ A.enc rk inN payload))
          (i - outN.length) j) = none := by
      apply hA.tamper FIXED_KEY outN _ (i - outN.length) j hout _ hj
      rw [hc2len, hout]
      omega
    simp only [htake, hdrop, hdec]

/-- Witness for C5: flip bit 0 of byte 0 of a concrete encrypted blob. -/
theorem c5_tamper_witness :
    flipAt (encrypt_pack_data toyAEAD (List.replicate 32 5) (List.replicate 12 3)
        (List.replicate 12 4) [1]) 0 0
      ≠ encrypt_pack_data toyAEAD (List.replicate 32 5) (List.replicate 12 3)
        (List.replicate 12 4) [1]
    ∧ decrypt_pack_data toyAEAD
        (flipAt (encrypt_pack_data toyAEAD (List.replicate 32 5) (List.replicate 12 3)
          (List.replicate 12 4) [1]) 0 0)
      = Except.error DecryptError.secondRoundFailed
    ∧ DecryptError.secondRoundFailed.isCryptoError = true :=
  c5_tamper toyAEAD goodToy (List.replicate 32 5) (List.replicate 12 3)
    (List.replicate 12 4) [1] 0 0 (by decide) (by decide) (by decide)
    (by decide) (by decide)

/-- Claim C2: on the chain 0 → 1 → 2 → 3 (A → B → C → D), the pack built
from start `3` with baseline `1` contains exactly the commits `{2, 3}` plus
every tree/blob referenced by them that is not referenced from the
baseline's closure, and the pack built with no baseline contains the full
closure of `{0, 1, 2, 3}`. -/
theorem c2_diff_correctness (t : Nat → List Nat) (c o : Nat) :
    (GitObj.commit c ∈ packObjects (chainG t) 3 3 (some 1) ↔ c = 3 ∨ c = 2)
    ∧ (GitObj.treeOrBlob o ∈ packObjects (chainG t) 3 3 (some 1) ↔
        (o ∈ t 3 ∨ o ∈ t 2) ∧ ¬ o ∈ t 1 ∧ ¬ o ∈ t 0)
    ∧ (GitObj.commit c ∈ packObjects (chainG t) 3 3 none ↔
        c = 3 ∨ c = 2 ∨ c = 1 ∨ c = 0)
    ∧ (GitObj.treeOrBlob o ∈ packObjects (chainG t) 3 3 none ↔
        o ∈ t 3 ∨ o ∈ t 2 ∨ o ∈ t 1 ∨ o ∈ t 0) := by
  have hsome : packObjects (chainG t) 3 3 (some 1)
      = [GitObj.commit 3, GitObj.commit 2] ++
        ((t 3 ++ (t 2 ++ [])).filter
          (fun o2 => decide (¬ o2 ∈ t 1 ++ (t 0 ++ [])))).map GitObj.treeOrBlob := rfl
  have hnone : packObjects (chainG t) 3 3 none
      = [GitObj.commit 3, GitObj.commit 2, GitObj.commit 1, GitObj.commit 0] ++
        ((t 3 ++ (t 2 ++ (t 1 ++ (t 0 ++ [])))).filter
          (fun o2 => decide (¬ o2 ∈ ([] : List Nat)))).map GitObj.treeOrBlob := rfl
  refine ⟨?_, ?_, ?_, ?_⟩
  · rw [hsome]
    simp
  · rw [hsome]
    simp
    tauto
  · rw [hnone]
    simp
  · rw [hnone]
    simp

/-- Counterexample to claim C8 as stated: the scp-style GitHub URL
`git@github.com:widget.git` parses to a path of a single segment
(`"widget"`), yet the parser returns `("unknown", "widget")`, not
`("unknown", "unknown")`. -/
theorem c8_counterexample :
    parse_repo_url ("git@github.com:widget.git") = (("unknown"), ("widget"))
    ∧ ((split_on (trim_end_matches ((split_on ("git@github.com:widget.git") (':')).getD 1 ("")) (".git")) ('/')).length < 2)
    ∧ ((("unknown"), ("widget")) : String × String) ≠ ((("unknown"), ("unknown"))) := by
  refine ⟨by decide, by decide, by decide⟩

/-- Claim C8 as amended: the parser never returns an error, and every URL
shape that does not yield at least two path segments parses to
`("unknown", "unknown")` — except the scp-style GitHub shape whose
after-colon portion yields a single segment, which parses to
`("unknown", p)` where `p` is that `.git`-stripped portion. -/
theorem c8_amended :
    (∀ remote, ∃ info, extract_repo_info remote = Except.ok info)
    ∧ (∀ url, contains_sub url ("github.com") = true →
        starts_with url ("git@") = true →
        ¬ (split_on url (':')).length ≥ 2 →
        parse_repo_url url = (("unknown"), ("unknown")))
    ∧ (∀ url, contains_sub url ("github.com") = true →
        starts_with url ("git@") = true →
        (split_on url (':')).length ≥ 2 →
        ¬ (split_on (trim_end_matches ((split_on url (':')).getD 1 ("")) (".git")) ('/')).length ≥ 2 →
        parse_repo_url url
          = (("unknown"), trim_end_matches ((split_on url (':')).getD 1 ("")) (".git")))
    ∧ (∀ url, contains_sub url ("github.com") = true →
        ¬ starts_with url ("git@") = true →
        ¬ (split_on url ('/')).length ≥ 5 →
        parse_repo_url url = (("unknown"), ("unknown")))
    ∧ (∀ url, ¬ contains_sub url ("github.com") = true →
        ¬ (split_on url ('/')).length ≥ 2 →
        parse_repo_url url = (("unknown"), ("unknown"))) := by
  refine ⟨?_, ?_, ?_, ?_, ?_⟩
  · intro remote
    rcases remote with _ | (_ | url)
    · exact ⟨(("unknown"), ("unknown")), rfl⟩
    · exact ⟨(("unknown"), ("unknown")), rfl⟩
    · exact ⟨parse_repo_url url, rfl⟩
  · intro url h1 h2 h3
    simp [parse_repo_url, h1, h2, h3]
  · intro url h1 h2 h3 h4
    simp [parse_repo_url, h1, h2, h3]
    intro h5
    apply absurd h5
    simpa using h4
  · intro url h1 h2 h3
    simp [parse_repo_url, h1, h2, h3]
  · intro url h1 h2
    simp [parse_repo_url, h1, h2]

/-- Witness for C8's amended theorem at concrete URLs for each shape. -/
theorem c8_amended_witness :
    (∃ info, extract_repo_info none = Except.ok info)
    ∧ parse_repo_url ("git@github.com") = (("unknown"), ("unknown"))
    ∧ parse_repo_url ("git@github.com:widget.git")
      = (("unknown"), trim_end_matches ((split_on ("git@github.com:widget.git") (':')).getD 1 ("")) (".git"))
    ∧ parse_repo_url ("https://github.com") = (("unknown"), ("unknown"))
    ∧ parse_repo_url ("xyz") = (("unknown"), ("unknown")) :=
  ⟨c8_amended.1 none,
   c8_amended.2.1 ("git@github.com") (by decide) (by decide) (by decide),
   c8_amended.2.2.1 ("git@github.com:widget.git") (by decide) (by decide)
     (by decide) (by decide),
   c8_amended.2.2.2.1 ("https://github.com") (by decide) (by decide) (by decide),
   c8_amended.2.2.2.2 ("xyz") (by decide) (by decide)⟩

theorem apply_sha_split_append (sha rest : Bytes) (h : sha.length = 40) :
    apply_sha_split (sha ++ rest) = some (sha, rest) := by
  have hlen : (sha ++ rest).length = 40 + rest.length := by
    rw [List.length_append, h]
  have h1 : rustSlice (sha ++ rest) 0 40 = some sha := by
    unfold rustSlice
    rw [if_pos ⟨by omega, by rw [hlen]; omega⟩]
    congr 1
    rw [List.drop_zero, show (40 - 0 : Nat) = sha.length from by omega]
    exact take_append_len sha rest
  have h2 : rustSlice (sha ++ rest) 40 (sha ++ rest).length = some rest := by
    unfold rustSlice
    rw [if_pos ⟨by rw [hlen]; omega, le_refl _⟩]
    congr 1
    have hd : (sha ++ rest).drop 40 = rest := by
      rw [show (40 : Nat) = sha.length from h.symm]
      exact drop_append_len sha rest
    rw [hd, show (sha ++ rest).length - 40 = rest.length from by rw [hlen]; omega,
      List.take_length]
  unfold apply_sha_split
  simp only [h1, h2]

/-- Claim C6 as amended: with HEAD on a branch, `cmd_up` uploads under the
key `{author}/{name}/{branch}/head.pack` the encryption of the staged
marker commit's 40-byte sha followed by the pack of everything reachable
from the marker and not from the remote-tracking baseline; downloading that
exact blob and applying it resets the receiving repository to the staged
marker commit — not to the original HEAD commit. -/
theorem c6_amended (A : AEAD) (hA : GoodAEAD A) (rk inN outN : Bytes)
    (g : CommitGraph) (fuel : Nat) (pe : List GitObj → Bytes) (st : RepoState)
    (so : Nat) (a b : String)
    (hrk : rk.length = 32) (hin : inN.length = 12) (hout : outN.length = 12)
    (hbr : st.headIsBranch = true)
    (hinfo : extract_repo_info st.remoteUrl = Except.ok (a, b)) :
    cmd_up_model A rk inN outN g fuel pe st so
      = Except.ok (upload_key a b st.branchName,
          encrypt_pack_data A rk inN outN
            (oidBytes so ++ pe (packObjects g fuel so st.remoteRef)))
    ∧ ∀ store : String → Option Bytes,
        store (upload_key a b st.branchName)
          = some (encrypt_pack_data A rk inN outN
              (oidBytes so ++ pe (packObjects g fuel so st.remoteRef))) →
        cmd_down_model A store st = Except.ok (oidBytes so) := by
  have hnb : ¬ (st.headIsBranch = false) := by rw [hbr]; simp
  constructor
  · unfold cmd_up_model
    rw [if_neg hnb]
    simp only [hinfo]
  · intro store hstore
    unfold cmd_down_model
    rw [if_neg hnb]
    simp only [hinfo, hstore,
      decrypt_encrypt_core A hA rk inN outN
        (oidBytes so ++ pe (packObjects g fuel so st.remoteRef)) hrk hin hout,
      apply_sha_split_append (oidBytes so)
        (pe (packObjects g fuel so st.remoteRef)) (oidBytes_len so)]

/-- Witness for C6's amended theorem at a concrete repository state. -/
theorem c6_amended_witness :
    cmd_up_model toyAEAD (List.replicate 32 5) (List.replicate 12 3)
        (List.replicate 12 4) (chainG (fun _ => [])) 3 (fun _ => [])
        ⟨true, ("dev"), 0, some (some ("git@github.com:acme/widget.git")), none⟩ 1
      = Except.ok (upload_key ("acme") ("widget") ("dev"),
          encrypt_pack_data toyAEAD (List.replicate 32 5) (List.replicate 12 3)
            (List.replicate 12 4)
            (oidBytes 1 ++ (fun _ => ([] : Bytes))
              (packObjects (chainG (fun _ => [])) 3 1 none)))
    ∧ cmd_down_model toyAEAD
        (fun k => if k = upload_key ("acme") ("widget") ("dev") then
            some (encrypt_pack_data toyAEAD (List.replicate 32 5)
              (List.replicate 12 3) (List.replicate 12 4)
              (oidBytes 1 ++ (fun _ => ([] : Bytes))
                (packObjects (chainG (fun _ => [])) 3 1 none)))
          else none)
        ⟨true, ("dev"), 0, some (some ("git@github.com:acme/widget.git")), none⟩
      = Except.ok (oidBytes 1) := by
  have h := c6_amended toyAEAD goodToy (List.replicate 32 5) (List.replicate 12 3)
    (List.replicate 12 4) (chainG (fun _ => [])) 3 (fun _ => [])
    ⟨true, ("dev"), 0, some (some ("git@github.com:acme/widget.git")), none⟩ 1
    ("acme") ("widget") (by decide) (by decide) (by decide) rfl rfl
  exact ⟨h.1, h.2 _ (by simp)⟩

/-- Counterexample to claim C6 as stated: on a repository whose HEAD commit
is `0` (the claim's `C1`), the pipeline resets the receiving repository to
the staged marker commit `1`, whose 40-byte identifier differs from
commit `0`'s — the receiving branch does not end up at `C1`. -/
theorem c6_counterexample :
    cmd_down_model toyAEAD
        (fun k => if k = upload_key ("acme") ("widget") ("dev") then
            some (encrypt_pack_data toyAEAD (List.replicate 32 5)
              (List.replicate 12 3) (List.replicate 12 4) (oidBytes 1 ++ []))
          else none)
        ⟨true, ("dev"), 0, some (some ("git@github.com:acme/widget.git")), none⟩
      = Except.ok (oidBytes 1)
    ∧ oidBytes 1 ≠ oidBytes 0 := by
  constructor
  · unfold cmd_down_model
    rw [if_neg (by simp)]
    have hinfo : extract_repo_info (some (some ("git@github.com:acme/widget.git")))
        = Except.ok ((("acme") : String), (("widget") : String)) := rfl
    simp only [hinfo]
    simp only [if_true]
    simp only [decrypt_encrypt_core toyAEAD goodToy (List.replicate 32 5)
      (List.replicate 12 3) (List.replicate 12 4) (oidBytes 1 ++ [])
      (by decide) (by decide) (by decide),
      apply_sha_split_append (oidBytes 1) [] (oidBytes_len 1)]
  · decide
